import Mathlib

/-!
Shallow embedding of `helm2bundle.go` (repository mhrivnak/helm2bundle).

The embedding covers the archive extractor `getTarValues` (modelled as a
recursion over the list of tar members, each member being a name together
with its raw content) and the descriptor builder `NewSpec`.  The gzip and
tar-framing layers, `os.Open`, and the YAML library (`gopkg.in/yaml.v2`)
are external to the repository; the YAML step is therefore a parameter
`parse : String → Option Chart` of the extractor (`none` models a
`yaml.Unmarshal` failure, `some c` a successful parse into the `Chart`
struct, whose absent fields default to the empty string, Go's zero value).
-/

namespace Helm2Bundle

/-- `Chart` holds data that is parsed from a helm chart's Chart.yaml file
(struct `Chart` in helm2bundle.go, field order as in the source). -/
structure Chart where
  description : String
  name : String
  icon : String
deriving DecidableEq

/-- `TarValues` holds data used to create the Dockerfile and apb.yml
(struct `TarValues` in helm2bundle.go). -/
structure TarValues where
  name : String
  description : String
  icon : String
  tarfileName : String
  values : String
deriving DecidableEq

/-- One parameter descriptor of a plan (`apb.ParameterDescriptor`, the
fields `NewSpec` sets; `Default` is the string put there by `NewSpec`). -/
structure ParameterDescriptor where
  name : String
  title : String
  type : String
  displayType : String
  default : String
deriving DecidableEq

/-- One deployment plan (`apb.Plan`, the fields `NewSpec` sets; the
`Metadata` map made by `make(map[string]interface\x7b\x7d)` is empty and is
modelled as an association list). -/
structure Plan where
  name : String
  description : String
  free : Bool
  metadata : List (String × String)
  parameters : List ParameterDescriptor
deriving DecidableEq

/-- The service bundle descriptor (`apb.Spec`, the fields `NewSpec` sets;
its `Metadata` map holds the two string entries set by `NewSpec` and is
modelled as an association list). -/
structure Spec where
  version : String
  name : String
  description : String
  bindable : Bool
  async : String
  metadata : List (String × String)
  plans : List Plan
deriving DecidableEq

/-- `NewSpec` returns a new APB spec populated with the passed-in data
(function `NewSpec`, helm2bundle.go lines 34-62).  `fmt.Sprintf` with a
single `%s` verb is string concatenation. -/
def NewSpec (v : TarValues) : Spec :=
  let parameter : ParameterDescriptor :=
    { name := "values"
      title := "Values"
      type := "string"
      displayType := "textarea"
      default := v.values }
  let plan : Plan :=
    { name := "default"
      description := "Deploys helm chart " ++ v.name
      free := true
      metadata := []
      parameters := [parameter] }
  { version := "1.0"
    name := v.name ++ "-apb"
    description := v.description
    bindable := false
    async := "optional"
    metadata := [("displayName", v.name ++ " (helm bundle)"), ("imageUrl", v.icon)]
    plans := [plan] }

/-- One tar archive member: its header name and its full raw content. -/
structure Member where
  name : String
  content : String
deriving DecidableEq

/-- Go's `path.Match` for a pattern of the shape `*/file` where `file`
contains no slash: `*` matches any (possibly empty) run of non-separator
characters, so the name must consist of a slash-free segment, a `/`, and
then exactly `file`.  Since `*` cannot cross `/`, it must extend exactly
to the first `/` of the name, so matching succeeds iff the part after the
first `/` equals `file`. -/
def matchSegFile (file : List Char) : List Char → Bool
  | [] => false
  | c :: rest => if c = '/' then decide (rest = file) else matchSegFile file rest

/-- `path.Match ("*" ++ "/Chart.yaml") hdr.Name` (helm2bundle.go line 223).
The pattern is a well-formed constant, so the error result of `path.Match`
cannot occur. -/
def chartMatch (name : String) : Bool :=
  matchSegFile "Chart.yaml".data name.data

/-- `path.Match ("*" ++ "/values.yaml") hdr.Name` (helm2bundle.go line 227). -/
def valuesMatch (name : String) : Bool :=
  matchSegFile "values.yaml".data name.data

/-- The distinguishable error outcomes of `getTarValues` relevant to the
extraction loop (I/O-level open/gzip/tar-corruption errors are outside the
member-list embedding). -/
inductive ExtractError where
  /-- `io.EOF` reached: the string "Chart.yaml not found in archive"
  (helm2bundle.go line 217). -/
  | chartNotFound : ExtractError
  /-- a `yaml.Unmarshal` failure propagated out of `parseChart`
  (helm2bundle.go lines 232-235 and 270-272). -/
  | parseError : ExtractError
  /-- the string "Could not find both Chart.yaml and values.yaml"
  (helm2bundle.go line 257). -/
  | notBothFound : ExtractError
deriving DecidableEq

/-- Which error kinds report a missing archive member (the spec's
MissingMemberError taxonomy entry: archive exhausted without both pieces
captured). -/
def ExtractError.isMissingMember : ExtractError → Bool
  | .chartNotFound => true
  | .parseError => false
  | .notBothFound => true

/-- The `for` loop of `getTarValues` (helm2bundle.go lines 214-247) over
the remaining members, carrying the mutable locals `chart` and `values`.
A `break` (both lengths positive, lines 244-246) surfaces the captured
pair; `io.EOF` on an empty remainder is the line-217 error.  The two
patterns never match the same name (`chartMatch_valuesMatch_exclusive`),
so reading the member content once for whichever pattern matched is
faithful to the single tar reader. -/
def getTarLoop (parse : String → Option Chart) :
    List Member → Chart → String → Except ExtractError (Chart × String)
  | [], _, _ => Except.error ExtractError.chartNotFound
  | hdr :: rest, chart, values =>
    match (if chartMatch hdr.name then parse hdr.content else some chart) with
    | none => Except.error ExtractError.parseError
    | some chart1 =>
      let values1 := if valuesMatch hdr.name then hdr.content else values
      if 0 < values1.length ∧ 0 < chart1.name.length then
        Except.ok (chart1, values1)
      else
        getTarLoop parse rest chart1 values1

/-- `getTarValues` (helm2bundle.go lines 199-258) from the member list on:
run the loop from the zero-valued `chart` and empty `values`, then the
post-loop check of lines 248-257 builds the `TarValues` or returns the
"Could not find both" error. -/
def getTarValues (parse : String → Option Chart) (filename : String)
    (members : List Member) : Except ExtractError TarValues :=
  match getTarLoop parse members ⟨"", "", ""⟩ "" with
  | Except.error e => Except.error e
  | Except.ok (chart, values) =>
    if 0 < values.length ∧ 0 < chart.name.length then
      Except.ok
        { name := chart.name
          description := chart.description
          icon := chart.icon
          tarfileName := filename
          values := values }
    else
      Except.error ExtractError.notBothFound

/-- A concrete stand-in for the yaml parser, used to evaluate the extractor
at concrete inputs: the content "name: foo" parses to a chart named "foo"
with description "bar" and icon "http://x/icon.png"; any other content is a
parse failure. -/
def parseFoo : String → Option Chart := fun s =>
  if s = "name: foo" then some ⟨"bar", "foo", "http://x/icon.png"⟩ else none

/-- A concrete stand-in for the yaml parser whose every parse succeeds but
yields a chart with an empty name (a Chart.yaml with no `name:` field). -/
def parseNoName : String → Option Chart := fun _ => some ⟨"", "", ""⟩

/-! ### Helper lemmas about the member-name patterns -/

theorem matchSegFile_iff (file name : List Char) :
    matchSegFile file name = true ↔
      ∃ s : List Char, (∀ a ∈ s, a ≠ '/') ∧ name = s ++ '/' :: file := by
  induction name with
  | nil =>
    simp [matchSegFile]
  | cons c rest ih =>
    by_cases hc : c = '/'
    · subst hc
      simp only [matchSegFile, eq_self_iff_true, if_true, decide_eq_true_eq]
      constructor
      · intro h
        exact ⟨[], by simp, by simp [h]⟩
      · rintro ⟨s, hs, heq⟩
        cases s with
        | nil => simpa using heq
        | cons a as =>
          exfalso
          have ha : '/' = a := by simpa using congrArg List.head? heq
          exact hs a (by simp) ha.symm
    · rw [matchSegFile, if_neg hc, ih]
      constructor
      · rintro ⟨s, hs, heq⟩
        refine ⟨c :: s, ?_, by simp [heq]⟩
        intro a ha
        rcases List.mem_cons.mp ha with h | h
        · exact h ▸ hc
        · exact hs a h
      · rintro ⟨s, hs, heq⟩
        cases s with
        | nil =>
          exfalso
          have : c = '/' := by simpa using congrArg List.head? heq
          exact hc this
        | cons a as =>
          have h1 : c = a ∧ rest = as ++ '/' :: file := by simpa using heq
          exact ⟨as, fun z hz => hs z (by simp [hz]), h1.2⟩

theorem matchSegFile_exclusive (f g name : List Char) (hfg : f ≠ g) :
    ¬(matchSegFile f name = true ∧ matchSegFile g name = true) := by
  induction name with
  | nil => simp [matchSegFile]
  | cons c rest ih =>
    by_cases hc : c = '/'
    · subst hc
      simp only [matchSegFile, eq_self_iff_true, if_true, decide_eq_true_eq]
      rintro ⟨h1, h2⟩
      exact hfg (h1 ▸ h2)
    · simpa [matchSegFile, hc] using ih

/-- `*/Chart.yaml` and `*/values.yaml` can never match the same member
name, since the filename components differ. -/
theorem chartMatch_valuesMatch_exclusive (name : String) :
    ¬(chartMatch name = true ∧ valuesMatch name = true) :=
  matchSegFile_exclusive _ _ _ (by decide)

/-! ### Helper lemmas about the extraction loop -/

/-- The loop only surfaces a pair in which both the values text and the
chart name are non-empty: the `break` of lines 244-246 is guarded by
exactly that condition. -/
theorem getTarLoop_ok_cond (parse : String → Option Chart) (ms : List Member)
    (c : Chart) (v : String) (p : Chart × String)
    (h : getTarLoop parse ms c v = Except.ok p) :
    0 < p.2.length ∧ 0 < p.1.name.length := by
  induction ms generalizing c v with
  | nil => simp [getTarLoop] at h
  | cons hdr rest ih =>
    rw [getTarLoop] at h
    cases hp : (if chartMatch hdr.name then parse hdr.content else some c) with
    | none => rw [hp] at h; cases h
    | some c1 =>
      rw [hp] at h
      dsimp only at h
      by_cases hc : 0 < (if valuesMatch hdr.name then hdr.content else v).length ∧
          0 < c1.name.length
      · rw [if_pos hc] at h
        injection h with h2
        subst h2
        exact hc
      · rw [if_neg hc] at h
        exact ih _ _ h

/-- The loop itself only ever errors with the `io.EOF` message of line 217
or a propagated parse error; the line-257 message is not produced by the
loop. -/
theorem getTarLoop_error_cases (parse : String → Option Chart) (ms : List Member)
    (c : Chart) (v : String) (e : ExtractError)
    (h : getTarLoop parse ms c v = Except.error e) :
    e = ExtractError.chartNotFound ∨ e = ExtractError.parseError := by
  induction ms generalizing c v with
  | nil =>
    rw [getTarLoop] at h
    exact Or.inl (Except.error.inj h).symm
  | cons hdr rest ih =>
    rw [getTarLoop] at h
    cases hp : (if chartMatch hdr.name then parse hdr.content else some c) with
    | none =>
      rw [hp] at h
      exact Or.inr (Except.error.inj h).symm
    | some c1 =>
      rw [hp] at h
      dsimp only at h
      by_cases hc : 0 < (if valuesMatch hdr.name then hdr.content else v).length ∧
          0 < c1.name.length
      · rw [if_pos hc] at h; cases h
      · rw [if_neg hc] at h; exact ih _ _ h

/-- Once the loop has broken out with a captured pair, appending further
members to the archive does not change the outcome: the `break` happens
before any later member is read. -/
theorem getTarLoop_append_ok (parse : String → Option Chart) (ms tail : List Member)
    (c : Chart) (v : String) (p : Chart × String)
    (h : getTarLoop parse ms c v = Except.ok p) :
    getTarLoop parse (ms ++ tail) c v = Except.ok p := by
  induction ms generalizing c v with
  | nil => simp [getTarLoop] at h
  | cons hdr rest ih =>
    rw [getTarLoop] at h
    rw [List.cons_append, getTarLoop]
    cases hp : (if chartMatch hdr.name then parse hdr.content else some c) with
    | none => rw [hp] at h; exact Except.noConfusion h
    | some c1 =>
      rw [hp] at h
      dsimp only at h ⊢
      by_cases hc : 0 < (if valuesMatch hdr.name then hdr.content else v).length ∧
          0 < c1.name.length
      · rw [if_pos hc] at h ⊢; exact h
      · rw [if_neg hc] at h ⊢; exact ih _ _ h

/-- While every metadata member parses to an empty chart name, the break
condition never holds (its second conjunct fails), so the loop runs to the
end of the archive and returns the line-217 error. -/
theorem getTarLoop_empty_name (parse : String → Option Chart) (ms : List Member)
    (c : Chart) (v : String) (hc : c.name = "")
    (hall : ∀ m ∈ ms, chartMatch m.name = true →
      ∃ c', parse m.content = some c' ∧ c'.name = "") :
    getTarLoop parse ms c v = Except.error ExtractError.chartNotFound := by
  induction ms generalizing c v with
  | nil => rw [getTarLoop]
  | cons hdr rest ih =>
    rw [getTarLoop]
    have hstep : ∃ c1, (if chartMatch hdr.name then parse hdr.content else some c) = some c1 ∧
        c1.name = "" := by
      by_cases hm : chartMatch hdr.name
      · obtain ⟨c', hp, hn⟩ := hall hdr (by simp) hm
        exact ⟨c', by rw [if_pos hm]; exact hp, hn⟩
      · exact ⟨c, by rw [if_neg hm], hc⟩
    obtain ⟨c1, hp, hn⟩ := hstep
    rw [hp]
    dsimp only
    rw [if_neg (by rw [hn]; simp)]
    exact ih c1 _ hn (fun m hm => hall m (by simp [hm]))

/-- While every values member has empty content, the captured values text
stays empty, the break condition never holds (its first conjunct fails),
and the loop runs to the end of the archive and returns the line-217
error.  Every metadata member is assumed to parse, else the loop stops
earlier with a parse error. -/
theorem getTarLoop_empty_values (parse : String → Option Chart) (ms : List Member)
    (c : Chart) (v : String) (hv : v = "")
    (hvals : ∀ m ∈ ms, valuesMatch m.name = true → m.content = "")
    (hparse : ∀ m ∈ ms, chartMatch m.name = true → ∃ c', parse m.content = some c') :
    getTarLoop parse ms c v = Except.error ExtractError.chartNotFound := by
  induction ms generalizing c v with
  | nil => rw [getTarLoop]
  | cons hdr rest ih =>
    rw [getTarLoop]
    have hstep : ∃ c1, (if chartMatch hdr.name then parse hdr.content else some c) = some c1 := by
      by_cases hm : chartMatch hdr.name
      · obtain ⟨c', hp⟩ := hparse hdr (by simp) hm
        exact ⟨c', by rw [if_pos hm]; exact hp⟩
      · exact ⟨c, by rw [if_neg hm]⟩
    obtain ⟨c1, hp⟩ := hstep
    rw [hp]
    dsimp only
    have hval1 : (if valuesMatch hdr.name then hdr.content else v) = "" := by
      by_cases hm : valuesMatch hdr.name
      · rw [if_pos hm]; exact hvals hdr (by simp) hm
      · rw [if_neg hm]; exact hv
    rw [hval1]
    rw [if_neg (by simp)]
    exact ih c1 "" rfl (fun m hm => hvals m (by simp [hm]))
      (fun m hm => hparse m (by simp [hm]))

/-- A successful `getTarValues` comes from a loop `break`: the post-loop
check of lines 248-257 repeats the break condition, so the returned record
is built from the pair the loop surfaced. -/
theorem getTarValues_ok (parse : String → Option Chart) (fn : String)
    (ms : List Member) (r : TarValues)
    (h : getTarValues parse fn ms = Except.ok r) :
    ∃ p : Chart × String, getTarLoop parse ms ⟨"", "", ""⟩ "" = Except.ok p ∧
      r = ⟨p.1.name, p.1.description, p.1.icon, fn, p.2⟩ := by
  unfold getTarValues at h
  cases hl : getTarLoop parse ms ⟨"", "", ""⟩ "" with
  | error e => rw [hl] at h; exact Except.noConfusion h
  | ok p =>
    rw [hl] at h
    obtain ⟨c1, v1⟩ := p
    dsimp only at h
    rw [if_pos (show 0 < v1.length ∧ 0 < c1.name.length from
      getTarLoop_ok_cond parse ms _ _ _ hl)] at h
    injection h with h2
    exact ⟨(c1, v1), rfl, h2.symm⟩

/-! ### The claims -/

/-- C1: for an archive holding `mychart/Chart.yaml` whose content parses to
name "foo", description "bar", icon "http://x/icon.png" and
`mychart/values.yaml` with content "replicaCount: 1\n", extraction returns
exactly the record with those fields and the values bytes verbatim, and
`NewSpec` on that record yields name "foo-apb", display name
"foo (helm bundle)", one plan "default" described "Deploys helm chart foo"
with one parameter "values" defaulting to "replicaCount: 1\n". -/
theorem extraction_success_path (parse : String → Option Chart) (fn c : String)
    (h : parse c = some ⟨"bar", "foo", "http://x/icon.png"⟩) :
    getTarValues parse fn
        [⟨"mychart/Chart.yaml", c⟩, ⟨"mychart/values.yaml", "replicaCount: 1\n"⟩] =
      Except.ok ⟨"foo", "bar", "http://x/icon.png", fn, "replicaCount: 1\n"⟩ ∧
    (NewSpec ⟨"foo", "bar", "http://x/icon.png", fn, "replicaCount: 1\n"⟩).name = "foo-apb" ∧
    (NewSpec ⟨"foo", "bar", "http://x/icon.png", fn, "replicaCount: 1\n"⟩).metadata =
      [("displayName", "foo (helm bundle)"), ("imageUrl", "http://x/icon.png")] ∧
    (NewSpec ⟨"foo", "bar", "http://x/icon.png", fn, "replicaCount: 1\n"⟩).plans =
      [⟨"default", "Deploys helm chart foo", true, [],
        [⟨"values", "Values", "string", "textarea", "replicaCount: 1\n"⟩]⟩] := by
  refine ⟨?_, rfl, rfl, rfl⟩
  simp +decide [getTarValues, getTarLoop, h]

theorem extraction_success_path_witness :
    getTarValues parseFoo "foo-0.1.0.tgz"
        [⟨"mychart/Chart.yaml", "name: foo"⟩, ⟨"mychart/values.yaml", "replicaCount: 1\n"⟩] =
      Except.ok ⟨"foo", "bar", "http://x/icon.png", "foo-0.1.0.tgz", "replicaCount: 1\n"⟩ ∧
    (NewSpec ⟨"foo", "bar", "http://x/icon.png", "foo-0.1.0.tgz", "replicaCount: 1\n"⟩).name =
      "foo-apb" ∧
    (NewSpec ⟨"foo", "bar", "http://x/icon.png", "foo-0.1.0.tgz", "replicaCount: 1\n"⟩).metadata =
      [("displayName", "foo (helm bundle)"), ("imageUrl", "http://x/icon.png")] ∧
    (NewSpec ⟨"foo", "bar", "http://x/icon.png", "foo-0.1.0.tgz", "replicaCount: 1\n"⟩).plans =
      [⟨"default", "Deploys helm chart foo", true, [],
        [⟨"values", "Values", "string", "textarea", "replicaCount: 1\n"⟩]⟩] :=
  extraction_success_path parseFoo "foo-0.1.0.tgz" "name: foo" (by rfl)

/-- C2: `NewSpec` derives every descriptor field as claimed: bundle name
`name ++ "-apb"`, display name `name ++ " (helm bundle)"`, icon copied,
`Bindable` false, `Async` "optional", exactly one plan "default" described
`"Deploys helm chart " ++ name` with `Free` true, carrying exactly one
textarea-typed string parameter "values" defaulting to the values text. -/
theorem NewSpec_descriptor_fields (v : TarValues) :
    (NewSpec v).name = v.name ++ "-apb" ∧
    (NewSpec v).metadata =
      [("displayName", v.name ++ " (helm bundle)"), ("imageUrl", v.icon)] ∧
    (NewSpec v).bindable = false ∧
    (NewSpec v).async = "optional" ∧
    (NewSpec v).plans =
      [⟨"default", "Deploys helm chart " ++ v.name, true, [],
        [⟨"values", "Values", "string", "textarea", v.values⟩]⟩] :=
  ⟨rfl, rfl, rfl, rfl, rfl⟩

/-- C3 (counterexample): an archive holding only `mychart/Chart.yaml`,
whose content parses to the non-empty name "foo", with no values member:
extraction fails with the line-217 error, whose message is "Chart.yaml not
found in archive" — it does not report the values member as the absent
one, because the `io.EOF` return preempts the distinguishing line-257
branch. -/
theorem missing_values_reports_chart_counterexample :
    getTarValues parseFoo "t.tgz" [⟨"mychart/Chart.yaml", "name: foo"⟩] =
      Except.error ExtractError.chartNotFound ∧
    parseFoo "name: foo" = some ⟨"bar", "foo", "http://x/icon.png"⟩ :=
  ⟨rfl, rfl⟩

/-- C3 (amended): whenever extraction fails, the error is either the
uniform line-217 "Chart.yaml not found in archive" error — produced at
end-of-archive no matter which member is missing — or a metadata parse
error; the "Could not find both Chart.yaml and values.yaml" distinction of
line 257 is unreachable. -/
theorem archive_end_error_uniform (parse : String → Option Chart) (fn : String)
    (ms : List Member) (e : ExtractError)
    (h : getTarValues parse fn ms = Except.error e) :
    e = ExtractError.chartNotFound ∨ e = ExtractError.parseError := by
  unfold getTarValues at h
  cases hl : getTarLoop parse ms ⟨"", "", ""⟩ "" with
  | error e1 =>
    rw [hl] at h
    dsimp only at h
    injection h with h2
    exact h2 ▸ getTarLoop_error_cases parse ms _ _ e1 hl
  | ok p =>
    rw [hl] at h
    obtain ⟨c1, v1⟩ := p
    dsimp only at h
    rw [if_pos (show 0 < v1.length ∧ 0 < c1.name.length from
      getTarLoop_ok_cond parse ms _ _ _ hl)] at h
    exact Except.noConfusion h

theorem archive_end_error_uniform_witness :
    ExtractError.chartNotFound = ExtractError.chartNotFound ∨
      ExtractError.chartNotFound = ExtractError.parseError :=
  archive_end_error_uniform parseFoo "t.tgz" [⟨"mychart/Chart.yaml", "name: foo"⟩] _ (by rfl)

/-- C4: extraction never looks past the point where both a non-empty chart
name and non-empty values text are captured: if a prefix of the archive
already yields a successful result, the whole archive yields that same
result, whatever members follow — in this list embedding the members after
the break are never consumed (`getTarLoop_append_ok`). -/
theorem extraction_early_exit (parse : String → Option Chart) (fn : String)
    (pre suf : List Member) (r : TarValues)
    (h : getTarValues parse fn pre = Except.ok r) :
    getTarValues parse fn (pre ++ suf) = Except.ok r := by
  obtain ⟨p, hl, rfl⟩ := getTarValues_ok parse fn pre r h
  unfold getTarValues
  rw [getTarLoop_append_ok parse pre suf _ _ p hl]
  obtain ⟨c1, v1⟩ := p
  dsimp only
  rw [if_pos (show 0 < v1.length ∧ 0 < c1.name.length from
    getTarLoop_ok_cond parse pre _ _ _ hl)]

theorem extraction_early_exit_witness :
    getTarValues parseFoo "t.tgz"
        ([⟨"mychart/Chart.yaml", "name: foo"⟩, ⟨"mychart/values.yaml", "replicaCount: 1\n"⟩] ++
          [⟨"mychart/extra/Chart.yaml", "junk"⟩]) =
      Except.ok ⟨"foo", "bar", "http://x/icon.png", "t.tgz", "replicaCount: 1\n"⟩ :=
  extraction_early_exit parseFoo "t.tgz" _ _ _ (by rfl)

/-- C5: a successful extraction always returns a record whose name and
values text are non-empty: the break of lines 244-246 and the post-loop
check of line 248 both require exactly this. -/
theorem extraction_result_invariant (parse : String → Option Chart) (fn : String)
    (ms : List Member) (r : TarValues)
    (h : getTarValues parse fn ms = Except.ok r) :
    0 < r.name.length ∧ 0 < r.values.length := by
  obtain ⟨p, hl, rfl⟩ := getTarValues_ok parse fn ms r h
  have hc := getTarLoop_ok_cond parse ms _ _ p hl
  exact ⟨hc.2, hc.1⟩

theorem extraction_result_invariant_witness :
    0 < (TarValues.mk "foo" "bar" "http://x/icon.png" "t.tgz" "replicaCount: 1\n").name.length ∧
    0 < (TarValues.mk "foo" "bar" "http://x/icon.png" "t.tgz"
      "replicaCount: 1\n").values.length :=
  extraction_result_invariant parseFoo "t.tgz"
    [⟨"mychart/Chart.yaml", "name: foo"⟩, ⟨"mychart/values.yaml", "replicaCount: 1\n"⟩]
    _ (by rfl)

/-- C6: when the scan reaches a member matching the metadata pattern whose
content fails to parse, extraction aborts at once with the parse error —
whatever the scan state, and without the members after it influencing the
outcome (they never get read). -/
theorem metadata_parse_failure_aborts (parse : String → Option Chart)
    (hdr : Member) (suf : List Member) (c : Chart) (v : String) (fn : String)
    (hm : chartMatch hdr.name = true) (hp : parse hdr.content = none) :
    getTarLoop parse (hdr :: suf) c v = Except.error ExtractError.parseError ∧
    getTarValues parse fn (hdr :: suf) = Except.error ExtractError.parseError := by
  have key : ∀ c0 : Chart, ∀ v0 : String,
      getTarLoop parse (hdr :: suf) c0 v0 = Except.error ExtractError.parseError := by
    intro c0 v0
    rw [getTarLoop, if_pos hm, hp]
  refine ⟨key c v, ?_⟩
  unfold getTarValues
  rw [key ⟨"", "", ""⟩ ""]

theorem metadata_parse_failure_aborts_witness :
    getTarLoop parseFoo [⟨"mychart/Chart.yaml", "junk"⟩, ⟨"mychart/values.yaml", "x"⟩]
        ⟨"", "", ""⟩ "" = Except.error ExtractError.parseError ∧
    getTarValues parseFoo "t.tgz"
        [⟨"mychart/Chart.yaml", "junk"⟩, ⟨"mychart/values.yaml", "x"⟩] =
      Except.error ExtractError.parseError :=
  metadata_parse_failure_aborts parseFoo ⟨"mychart/Chart.yaml", "junk"⟩
    [⟨"mychart/values.yaml", "x"⟩] ⟨"", "", ""⟩ "" "t.tgz" (by decide) (by rfl)

/-- C7: the metadata pattern matches a member name exactly when the name is
one slash-free directory segment, a slash, then exactly `Chart.yaml`, and
likewise the values pattern with `values.yaml`; in particular
`mychart/Chart.yaml` matches and the two-level `mychart/sub/Chart.yaml`
does not. -/
theorem member_pattern_specificity :
    (∀ name : String, chartMatch name = true ↔
      ∃ s : List Char, (∀ a ∈ s, a ≠ '/') ∧ name.data = s ++ '/' :: "Chart.yaml".data) ∧
    (∀ name : String, valuesMatch name = true ↔
      ∃ s : List Char, (∀ a ∈ s, a ≠ '/') ∧ name.data = s ++ '/' :: "values.yaml".data) ∧
    chartMatch "mychart/Chart.yaml" = true ∧
    chartMatch "mychart/sub/Chart.yaml" = false :=
  ⟨fun _ => matchSegFile_iff _ _, fun _ => matchSegFile_iff _ _, by decide, by decide⟩

/-- C8: when every metadata member of the archive parses to an empty chart
name, the break condition is never met — the scan keeps going — and at
end-of-archive extraction fails with the line-217 missing-member error
instead of returning a record with an empty name; this holds in particular
when a values member with non-empty content was captured along the way. -/
theorem empty_chart_name_keeps_scanning (parse : String → Option Chart) (fn : String)
    (ms : List Member)
    (hall : ∀ m ∈ ms, chartMatch m.name = true →
      ∃ c, parse m.content = some c ∧ c.name = "")
    (hmeta : ∃ m ∈ ms, chartMatch m.name = true)
    (hvals : ∃ m ∈ ms, valuesMatch m.name = true ∧ 0 < m.content.length) :
    getTarValues parse fn ms = Except.error ExtractError.chartNotFound ∧
    ExtractError.chartNotFound.isMissingMember = true := by
  refine ⟨?_, rfl⟩
  unfold getTarValues
  rw [getTarLoop_empty_name parse ms ⟨"", "", ""⟩ "" rfl hall]

theorem empty_chart_name_keeps_scanning_witness :
    getTarValues parseNoName "t.tgz"
        [⟨"mychart/Chart.yaml", "description: d"⟩,
          ⟨"mychart/values.yaml", "replicaCount: 1\n"⟩] =
      Except.error ExtractError.chartNotFound ∧
    ExtractError.chartNotFound.isMissingMember = true :=
  empty_chart_name_keeps_scanning parseNoName "t.tgz"
    [⟨"mychart/Chart.yaml", "description: d"⟩, ⟨"mychart/values.yaml", "replicaCount: 1\n"⟩]
    (fun _ _ _ => ⟨⟨"", "", ""⟩, rfl, rfl⟩)
    ⟨⟨"mychart/Chart.yaml", "description: d"⟩, by decide, by decide⟩
    ⟨⟨"mychart/values.yaml", "replicaCount: 1\n"⟩, by decide, by decide, by decide⟩

/-- C9: the descriptor builder is a pure function of its input: calls on
structurally equal records yield structurally equal descriptors. -/
theorem NewSpec_deterministic (v w : TarValues) (h : v = w) :
    NewSpec v = NewSpec w := by rw [h]

theorem NewSpec_deterministic_witness :
    NewSpec ⟨"foo", "bar", "http://x/icon.png", "t.tgz", "replicaCount: 1\n"⟩ =
      NewSpec ⟨"foo", "bar", "http://x/icon.png", "t.tgz", "replicaCount: 1\n"⟩ :=
  NewSpec_deterministic _ _ rfl

/-- C10: a values member with empty content never satisfies the break
condition (the captured values text stays empty), so an archive whose
values members are all empty runs to end-of-archive and fails with the
line-217 missing-member error even when a metadata member with a non-empty
name was found — an empty values file behaves like an absent one. -/
theorem empty_values_member_not_found (parse : String → Option Chart) (fn : String)
    (ms : List Member)
    (hvals : ∀ m ∈ ms, valuesMatch m.name = true → m.content = "")
    (hparse : ∀ m ∈ ms, chartMatch m.name = true → ∃ c, parse m.content = some c)
    (hfound : ∃ m ∈ ms, chartMatch m.name = true ∧
      ∃ c, parse m.content = some c ∧ 0 < c.name.length) :
    getTarValues parse fn ms = Except.error ExtractError.chartNotFound ∧
    ExtractError.chartNotFound.isMissingMember = true := by
  refine ⟨?_, rfl⟩
  unfold getTarValues
  rw [getTarLoop_empty_values parse ms ⟨"", "", ""⟩ "" rfl hvals hparse]

theorem empty_values_member_not_found_witness :
    getTarValues parseFoo "t.tgz"
        [⟨"mychart/Chart.yaml", "name: foo"⟩, ⟨"mychart/values.yaml", ""⟩] =
      Except.error ExtractError.chartNotFound ∧
    ExtractError.chartNotFound.isMissingMember = true :=
  empty_values_member_not_found parseFoo "t.tgz"
    [⟨"mychart/Chart.yaml", "name: foo"⟩, ⟨"mychart/values.yaml", ""⟩]
    (by decide)
    (by
      intro m hm hc
      rcases List.mem_cons.mp hm with rfl | hm2
      · exact ⟨⟨"bar", "foo", "http://x/icon.png"⟩, rfl⟩
      · rcases List.mem_cons.mp hm2 with rfl | h
        · exact absurd hc (by decide)
        · cases h)
    ⟨⟨"mychart/Chart.yaml", "name: foo"⟩, by decide, by decide,
      ⟨"bar", "foo", "http://x/icon.png"⟩, by rfl, by decide⟩

end Helm2Bundle
